import Mathlib

/-!
Shallow embedding of the MarbleMazeBuilder race engine.

The definitions below are translated from the repository's source:
  * `src/types.ts` — the data model (`Racer`, `LineWall`, `Particle`,
    `GameState`) and the `useRaceLogic` hook: the per-frame `updateRace`
    callback, `startRace`, `resetRace`, `restartCurrentRace`, the
    particle-spawn effect, and the physics constants.
  * `src/App.tsx` — the editor-level handlers (`handleDeleteWall`,
    `handleAddWall`, `handleRaceAgain`, `handleEditMaze`,
    `handleClearMaze`).

JavaScript numbers are modelled as real numbers; `Math.sqrt` is
`Real.sqrt`.  `Math.random()` draws are passed in as explicit parameters
(`u1 u2 u3 : ℝ`, each in `[0,1)` for a genuine draw).  The optional
`touchCount` field of a wall is `Option ℕ` (`none` = the property is
absent); the JavaScript truthiness and comparison semantics on it
(`wall.touchCount || 0`, `prevWall.touchCount < 2` where
`undefined < 2` is `false`) are modelled explicitly.

React state updates issued during one tick are gathered into a single
state-to-state function `updateRace`: within a tick every read goes
through `raceStateRef.current`, which holds the snapshot published at the
end of the previous tick, so the tick is a pure function of the previous
snapshot.  The `scheduled` flag records whether a next animation frame is
scheduled (`requestAnimationFrame` sets it, `cancelAnimationFrame`
clears it).
-/

namespace MarbleMaze

/-- Racer identity, from the `RacerId` union type in `src/types.ts`. -/
inductive RacerId where
  | circle
  | square
  | triangle
deriving DecidableEq

/-- Game state, from the `GameState` union type in `src/types.ts`. -/
inductive GameState where
  | building
  | idle
  | racing
  | finished
deriving DecidableEq

/-- A racer, from the `Racer` interface (the cosmetic `color`/`name`
strings are omitted: they are never read by the engine). -/
structure Racer where
  id : RacerId
  x : ℝ
  y : ℝ
  vx : ℝ
  vy : ℝ
  radius : ℝ

/-- A wall segment, from the `LineWall` interface.  `touchCount` is an
optional property; `none` models its absence (the cosmetic `shapeType`
tag is omitted: it is never read by the engine). -/
structure LineWall where
  x1 : ℝ
  y1 : ℝ
  x2 : ℝ
  y2 : ℝ
  touchCount : Option ℕ := none

/-- A debris particle, from the `Particle` interface (the cosmetic
`id`/`color` strings are omitted: they are never read by the engine). -/
structure Particle where
  x : ℝ
  y : ℝ
  vx : ℝ
  vy : ℝ
  lifespan : ℤ
  maxLifespan : ℤ
  size : ℝ

/-- The complete published snapshot of the `useRaceLogic` hook's React
state, plus the `scheduled` flag: whether an animation frame callback is
currently scheduled via `requestAnimationFrame`. -/
structure RaceState where
  racers : List Racer
  walls : List LineWall
  gameState : GameState
  winner : Option Racer
  particles : List Particle
  cameraY : ℝ
  scheduled : Bool

/-- Course width, `LEVEL_WIDTH = 450` in `useRaceLogic`. -/
def LEVEL_WIDTH : ℝ := 450

/-- Gravity acceleration, `GRAVITY = 0.1`. -/
def GRAVITY : ℝ := 0.1

/-- Bounciness, `RESTITUTION = 0.70`. -/
def RESTITUTION : ℝ := 0.70

/-- Racer radius, `RACER_RADIUS = 20`. -/
def RACER_RADIUS : ℝ := 20

/-- Speed cap, `MAX_SPEED = 15`. -/
def MAX_SPEED : ℝ := 15

/-- Fixed camera viewport height, `VIEWPORT_HEIGHT = 800`. -/
def VIEWPORT_HEIGHT : ℝ := 800

/-- The `createInitialRacers` factory.  Each racer's horizontal velocity
is `(Math.random() - 0.5) * 2`; the three draws are the parameters
`u1 u2 u3`. -/
def createInitialRacers (u1 u2 u3 : ℝ) : List Racer :=
  [ { id := RacerId.circle, x := LEVEL_WIDTH * 0.25, y := 30,
      vx := (u1 - 0.5) * 2, vy := 0, radius := RACER_RADIUS },
    { id := RacerId.square, x := LEVEL_WIDTH * 0.5, y := 30,
      vx := (u2 - 0.5) * 2, vy := 0, radius := RACER_RADIUS },
    { id := RacerId.triangle, x := LEVEL_WIDTH * 0.75, y := 30,
      vx := (u3 - 0.5) * 2, vy := 0, radius := RACER_RADIUS } ]

/-- The mutable per-racer state threaded through the wall-collision
`forEach` loop of `updateRace`: the racer's working position and
velocity, together with the indices recorded so far into the shared
`wallHitMap` of the tick. -/
structure MoveState where
  x : ℝ
  y : ℝ
  vx : ℝ
  vy : ℝ
  hits : List ℕ

/-- One iteration of the maze-wall collision `forEach` loop in
`updateRace` (circle-to-line-segment test, wall-hit recording, push-out
and impulse response), for the wall at index `iw.1`. -/
noncomputable def wallStep (radius : ℝ) (st : MoveState) (iw : ℕ × LineWall) :
    MoveState :=
  let index := iw.1
  let wall := iw.2
  let currentTouchCount := wall.touchCount.getD 0
  if 2 ≤ currentTouchCount then st   -- Ignore destroyed walls
  else
    let lineX := wall.x2 - wall.x1
    let lineY := wall.y2 - wall.y1
    let lineLenSq := lineX * lineX + lineY * lineY
    if lineLenSq = 0 then st   -- Skip if wall is a point
    else
      let t := max 0 (min 1
        (((st.x - wall.x1) * lineX + (st.y - wall.y1) * lineY) / lineLenSq))
      let closestX := wall.x1 + t * lineX
      let closestY := wall.y1 + t * lineY
      let dx := st.x - closestX
      let dy := st.y - closestY
      let distanceSq := dx * dx + dy * dy
      if distanceSq < radius * radius then
        let hits' := st.hits ++ [index]   -- wallHitMap.set(index, tc + 1)
        let distance := if 0 < distanceSq then Real.sqrt distanceSq else 0
        if distance = 0 then
          { st with x := st.x + (wall.y2 - wall.y1) * 0.01,
                    y := st.y + (wall.x1 - wall.x2) * 0.01,
                    hits := hits' }
        else
          let collisionNormalX := dx / distance
          let collisionNormalY := dy / distance
          let overlap := radius - distance
          let x' := st.x + collisionNormalX * (overlap + 0.01)
          let y' := st.y + collisionNormalY * (overlap + 0.01)
          let velDotNormal := st.vx * collisionNormalX + st.vy * collisionNormalY
          if velDotNormal < 0 then
            let tangentVx := st.vx - velDotNormal * collisionNormalX
            let tangentVy := st.vy - velDotNormal * collisionNormalY
            let newNormalVelocityMagnitude := -velDotNormal * RESTITUTION
            { x := x', y := y',
              vx := tangentVx + newNormalVelocityMagnitude * collisionNormalX,
              vy := tangentVy + newNormalVelocityMagnitude * collisionNormalY,
              hits := hits' }
          else
            { st with x := x', y := y', hits := hits' }
      else st

/-- The wall-collision `forEach` loop: the walls are visited in list
order with their indices, starting at `i`. -/
noncomputable def wallsFold (radius : ℝ) : ℕ → List LineWall → MoveState → MoveState
  | _, [], st => st
  | i, w :: ws, st => wallsFold radius (i + 1) ws (wallStep radius st (i, w))

/-- The speed-cap stage at the end of a racer's update in `updateRace`:
if the speed exceeds `MAX_SPEED`, rescale the velocity vector to
`MAX_SPEED`. -/
noncomputable def capVelocity (vx vy : ℝ) : ℝ × ℝ :=
  let speed := Real.sqrt (vx * vx + vy * vy)
  if MAX_SPEED < speed then (vx / speed * MAX_SPEED, vy / speed * MAX_SPEED)
  else (vx, vy)

/-- The per-racer body of the `racers.map` in `updateRace`: gravity,
position integration, board-boundary collision, the wall loop, and the
speed cap.  Returns the updated racer together with the wall indices it
recorded into the tick's `wallHitMap`. -/
noncomputable def stepRacer (walls : List LineWall) (r : Racer) :
    Racer × List ℕ :=
  let vy0 := r.vy + GRAVITY
  let x0 := r.x + r.vx
  let y0 := r.y + vy0
  let bounced := x0 - r.radius < 0 ∨ LEVEL_WIDTH < x0 + r.radius
  let vx1 := if bounced then r.vx * (-RESTITUTION) else r.vx
  let x1 := if bounced then
      (if x0 - r.radius < 0 then r.radius else LEVEL_WIDTH - r.radius)
    else x0
  let st := wallsFold r.radius 0 walls ⟨x1, y0, vx1, vy0, []⟩
  let v' := capVelocity st.vx st.vy
  ({ r with x := st.x, y := st.y, vx := v'.1, vy := v'.2 }, st.hits)

/-- The racers list after the `racers.map` of one tick. -/
noncomputable def tickRacers (s : RaceState) : List Racer :=
  s.racers.map fun r => (stepRacer s.walls r).1

/-- The contents of the tick's shared `wallHitMap`, as the list of all
wall indices recorded by any racer (membership is what matters: the map
value stored for index `i` is always the snapshot `touchCount` of wall
`i` plus one). -/
noncomputable def tickHits (s : RaceState) : List ℕ :=
  (s.racers.map fun r => (stepRacer s.walls r).2).flatten

open Classical in
/-- The winner after one tick.  Each racer whose post-update `y` exceeds
`levelHeight` calls `setWinner(racer)` when `raceStateRef.current.winner`
(the snapshot winner, constant throughout the tick) is unset; successive
calls within the tick overwrite one another, so the last qualifying racer
in iteration order provides the final value. -/
noncomputable def tickWinner (levelHeight : ℝ) (s : RaceState) : Option Racer :=
  s.racers.foldl
    (fun acc r =>
      if levelHeight < (stepRacer s.walls r).1.y ∧ s.winner = none then some r
      else acc)
    s.winner

/-- The `wallHitMap` merge in `updateRace`: walls whose index was
recorded get `touchCount` set to their snapshot count plus one.  The
walls are visited with their indices starting at `i`. -/
def updWallsFrom (hits : List ℕ) : ℕ → List LineWall → List LineWall
  | _, [] => []
  | i, w :: ws =>
      (if i ∈ hits then { w with touchCount := some (w.touchCount.getD 0 + 1) }
       else w) :: updWallsFrom hits (i + 1) ws

/-- The `setWalls` merge of the tick's `wallHitMap` into the wall list. -/
def updWalls (hits : List ℕ) (walls : List LineWall) : List LineWall :=
  updWallsFrom hits 0 walls

/-- The particle update at the top of `updateRace`: integrate position
and velocity, decrement lifespan, drop expired particles. -/
def stepParticles (ps : List Particle) : List Particle :=
  (ps.map fun p =>
    { p with x := p.x + p.vx, y := p.y + p.vy, vy := p.vy + 0.05,
             lifespan := p.lifespan - 1 }).filter
    fun p => 0 < p.lifespan

/-- The camera target of a tick:
`Math.max(VIEWPORT_HEIGHT / 2, Math.max(0, ...newRacers.map(r => r.y)))`. -/
noncomputable def cameraTarget (racers : List Racer) : ℝ :=
  max (VIEWPORT_HEIGHT / 2) ((racers.map Racer.y).foldl max 0)

/-- One execution of the `updateRace` callback against the snapshot `s`
published by the previous tick.  If a winner is already recorded the
callback sets the game state to `finished`, cancels the scheduled
animation frame and returns; otherwise it updates particles, racers,
walls, winner and camera, and schedules the next frame. -/
noncomputable def updateRace (levelHeight : ℝ) (s : RaceState) : RaceState :=
  if s.winner.isSome then
    { s with gameState := GameState.finished, scheduled := false }
  else
    { racers := tickRacers s,
      walls := if tickHits s = [] then s.walls else updWalls (tickHits s) s.walls,
      gameState := s.gameState,
      winner := tickWinner levelHeight s,
      particles :=
        if 0 < s.particles.length then stepParticles s.particles else s.particles,
      cameraY := s.cameraY + (cameraTarget (tickRacers s) - s.cameraY) * 0.08,
      scheduled := true }

/-- The `startRace` callback: only valid from `idle`; schedules the
animation loop. -/
def startRace (s : RaceState) : RaceState :=
  if s.gameState = GameState.idle then
    { s with gameState := GameState.racing, scheduled := true }
  else s

/-- Removal of the optional `touchCount` property from every wall, the
`setWalls(prevWalls => prevWalls.map(({ touchCount, ...rest }) => rest))`
step shared by `resetRace` and `restartCurrentRace`. -/
def stripTouchCounts (walls : List LineWall) : List LineWall :=
  walls.map fun w => { w with touchCount := none }

/-- The `resetRace` callback: cancel the animation frame, recreate the
racers (with fresh random draws `u1 u2 u3`), clear winner and particles,
reset the camera, and strip every wall's `touchCount`.  The game state is
not modified here (the caller sets it separately). -/
noncomputable def resetRace (u1 u2 u3 : ℝ) (s : RaceState) : RaceState :=
  { s with racers := createInitialRacers u1 u2 u3,
           winner := none,
           particles := [],
           cameraY := VIEWPORT_HEIGHT / 2,
           walls := stripTouchCounts s.walls,
           scheduled := false }

/-- The `restartCurrentRace` callback: the same full reset as
`resetRace`, then re-schedule the loop only if the game state is already
`racing`. -/
noncomputable def restartCurrentRace (u1 u2 u3 : ℝ) (s : RaceState) : RaceState :=
  { s with racers := createInitialRacers u1 u2 u3,
           winner := none,
           particles := [],
           cameraY := VIEWPORT_HEIGHT / 2,
           walls := stripTouchCounts s.walls,
           scheduled := s.gameState = GameState.racing }

/-- The `handleRaceAgain` handler in `src/App.tsx`: reset, set the state
to `idle`, then start the race. -/
noncomputable def handleRaceAgain (u1 u2 u3 : ℝ) (s : RaceState) : RaceState :=
  startRace { resetRace u1 u2 u3 s with gameState := GameState.idle }

/-- The `handleEditMaze` handler in `src/App.tsx`: reset and return to
`building`. -/
noncomputable def handleEditMaze (u1 u2 u3 : ℝ) (s : RaceState) : RaceState :=
  { resetRace u1 u2 u3 s with gameState := GameState.building }

/-- The `handleAddWall` handler in `src/App.tsx`. -/
def handleAddWall (walls : List LineWall) (w : LineWall) : List LineWall :=
  walls ++ [w]

/-- The `handleClearMaze` handler in `src/App.tsx`. -/
def handleClearMaze (_walls : List LineWall) : List LineWall :=
  []

/-- The `handleDeleteWall` handler in `src/App.tsx`:
`setWalls(prev => prev.filter((_, i) => i !== index))`. -/
def handleDeleteWall (walls : List LineWall) (index : ℕ) : List LineWall :=
  (walls.enum.filter fun iw => iw.1 ≠ index).map Prod.snd

/-- Error condition demanded by the specification for out-of-range wall
removal. -/
inductive WallEditError where
  | invalidIndex
deriving DecidableEq

/-- Modelled from the spec: section 7 requires that removal of a wall at
an out-of-range index "fail with an `InvalidIndex` condition reported to
the caller (the editor), never silently corrupting the wall list".  No
such error channel exists in the repository's code; this definition
follows the spec's words and is compared with `handleDeleteWall`. -/
def removeWallSpec (walls : List LineWall) (index : ℕ) :
    Except WallEditError (List LineWall) :=
  if index < walls.length then Except.ok (walls.eraseIdx index)
  else Except.error WallEditError.invalidIndex

/-- JavaScript comparison `tc < 2` on an optional numeric property:
`undefined < 2` evaluates to `false`. -/
def jsLtTwo : Option ℕ → Bool
  | none => false
  | some k => decide (k < 2)

/-- The per-wall condition of the particle-spawn effect in
`useRaceLogic`: `wall.touchCount === 2 && (!prevWall ||
prevWall.touchCount < 2)`, where `prevWall` is the entry of
`prevWallsRef.current` at the same index. -/
def emitsAt (prevWalls walls : List LineWall) (i : ℕ) : Bool :=
  match walls[i]? with
  | none => false
  | some w =>
      decide (w.touchCount = some 2) &&
        (match prevWalls[i]? with
         | none => true
         | some pw => jsLtTwo pw.touchCount)

/-- The `touchCount` property of the wall at index `i`, as an optional
value (`none` when the index is out of range or the property absent). -/
def tcOpt (walls : List LineWall) (i : ℕ) : Option ℕ :=
  walls[i]?.bind LineWall.touchCount

/-- The effective hit count of the wall at index `i`, with JavaScript
defaulting (`wall.touchCount || 0`); `0` when the index is out of
range. -/
def tcVal (walls : List LineWall) (i : ℕ) : ℕ :=
  (tcOpt walls i).getD 0

end MarbleMaze

namespace MarbleMaze

/-! ## Pointwise description of the wall-hit merge -/

theorem updWallsFrom_getElem? (hits : List ℕ) :
    ∀ (ws : List LineWall) (k j : ℕ),
      (updWallsFrom hits k ws)[j]? =
        ws[j]?.map fun w =>
          if k + j ∈ hits then
            { w with touchCount := some (w.touchCount.getD 0 + 1) }
          else w := by
  intro ws
  induction ws with
  | nil => intro k j; simp [updWallsFrom]
  | cons w ws ih =>
      intro k j
      cases j with
      | zero => simp [updWallsFrom]
      | succ j =>
          have hk : k + (j + 1) = (k + 1) + j := by omega
          simp only [updWallsFrom, List.getElem?_cons_succ, ih (k + 1) j, hk]

theorem updWalls_getElem? (hits : List ℕ) (ws : List LineWall) (j : ℕ) :
    (updWalls hits ws)[j]? =
      ws[j]?.map fun w =>
        if j ∈ hits then
          { w with touchCount := some (w.touchCount.getD 0 + 1) }
        else w := by
  have := updWallsFrom_getElem? hits ws 0 j
  simpa [updWalls] using this

theorem tcVal_eq_getD (ws : List LineWall) (j : ℕ) :
    tcVal ws j = (tcOpt ws j).getD 0 := rfl

theorem tcOpt_updWalls_mem (hits : List ℕ) (ws : List LineWall) (j : ℕ)
    (hj : j ∈ hits) (hlt : j < ws.length) :
    tcOpt (updWalls hits ws) j = some (tcVal ws j + 1) := by
  have hget : ws[j]? = some ws[j] := List.getElem?_eq_getElem hlt
  simp [tcOpt, tcVal, updWalls_getElem?, hget, hj]

theorem tcOpt_updWalls_not_mem (hits : List ℕ) (ws : List LineWall) (j : ℕ)
    (hj : j ∉ hits) :
    tcOpt (updWalls hits ws) j = tcOpt ws j := by
  cases hget : ws[j]? with
  | none => simp [tcOpt, updWalls_getElem?, hget]
  | some w => simp [tcOpt, updWalls_getElem?, hget, hj]

theorem tcOpt_updWalls_oob (hits : List ℕ) (ws : List LineWall) (j : ℕ)
    (hj : ws.length ≤ j) :
    tcOpt (updWalls hits ws) j = tcOpt ws j := by
  have hget : ws[j]? = none := List.getElem?_eq_none hj
  simp [tcOpt, updWalls_getElem?, hget]

theorem tcVal_updWalls (hits : List ℕ) (ws : List LineWall) (j : ℕ) :
    tcVal (updWalls hits ws) j =
      if j ∈ hits ∧ j < ws.length then tcVal ws j + 1 else tcVal ws j := by
  by_cases hj : j ∈ hits
  · by_cases hlt : j < ws.length
    · simp [tcVal_eq_getD, tcOpt_updWalls_mem hits ws j hj hlt, hj, hlt]
    · have := tcOpt_updWalls_oob hits ws j (by omega)
      simp [tcVal_eq_getD, this, hj, hlt]
  · have := tcOpt_updWalls_not_mem hits ws j hj
    simp [tcVal_eq_getD, this, hj]

theorem tcOpt_stripTouchCounts (ws : List LineWall) (j : ℕ) :
    tcOpt (stripTouchCounts ws) j = none := by
  cases hget : ws[j]? with
  | none => simp [tcOpt, stripTouchCounts, List.getElem?_map, hget]
  | some w => simp [tcOpt, stripTouchCounts, List.getElem?_map, hget]

/-! ## Which indices the collision loop can record -/

theorem wallStep_hits (radius : ℝ) (st : MoveState) (iw : ℕ × LineWall) :
    (wallStep radius st iw).hits = st.hits ∨
      ((wallStep radius st iw).hits = st.hits ++ [iw.1] ∧
        iw.2.touchCount.getD 0 < 2) := by
  by_cases h1 : 2 ≤ iw.2.touchCount.getD 0
  · left; simp [wallStep, h1]
  · simp only [wallStep, if_neg h1]
    by_cases h2 : (iw.2.x2 - iw.2.x1) * (iw.2.x2 - iw.2.x1) +
        (iw.2.y2 - iw.2.y1) * (iw.2.y2 - iw.2.y1) = 0
    · left; simp [h2]
    · simp only [if_neg h2]
      set t := max 0 (min 1
        (((st.x - iw.2.x1) * (iw.2.x2 - iw.2.x1) +
          (st.y - iw.2.y1) * (iw.2.y2 - iw.2.y1)) /
            ((iw.2.x2 - iw.2.x1) * (iw.2.x2 - iw.2.x1) +
              (iw.2.y2 - iw.2.y1) * (iw.2.y2 - iw.2.y1)))) with ht
      by_cases h3 : (st.x - (iw.2.x1 + t * (iw.2.x2 - iw.2.x1))) *
            (st.x - (iw.2.x1 + t * (iw.2.x2 - iw.2.x1))) +
          (st.y - (iw.2.y1 + t * (iw.2.y2 - iw.2.y1))) *
            (st.y - (iw.2.y1 + t * (iw.2.y2 - iw.2.y1))) < radius * radius
      · right
        refine ⟨?_, by omega⟩
        simp only [if_pos h3]
        repeat' split
        all_goals rfl
      · left; simp [h3]

end MarbleMaze

namespace MarbleMaze

/-! ## The collision loop only records live, in-range wall indices -/

theorem wallsFold_hits_mem (radius : ℝ) :
    ∀ (ws : List LineWall) (i : ℕ) (st : MoveState) (j : ℕ),
      j ∈ (wallsFold radius i ws st).hits →
        j ∈ st.hits ∨
          (i ≤ j ∧ ∃ w, ws[j - i]? = some w ∧ w.touchCount.getD 0 < 2) := by
  intro ws
  induction ws with
  | nil => intro i st j hj; exact Or.inl hj
  | cons w ws ih =>
      intro i st j hj
      rcases ih (i + 1) (wallStep radius st (i, w)) j hj with h | ⟨hij, w', hw', htc⟩
      · rcases wallStep_hits radius st (i, w) with heq | ⟨heq, htc⟩
        · rw [heq] at h; exact Or.inl h
        · rw [heq] at h
          rcases List.mem_append.mp h with h | h
          · exact Or.inl h
          · have : j = i := by simpa using h
            subst this
            right
            exact ⟨le_refl j, w, by simp, htc⟩
      · right
        refine ⟨by omega, w', ?_, htc⟩
        have : j - i = (j - (i + 1)) + 1 := by omega
        rw [this]
        simpa using hw'

theorem tickHits_valid (s : RaceState) (j : ℕ) (hj : j ∈ tickHits s) :
    j < s.walls.length ∧ tcVal s.walls j < 2 := by
  simp only [tickHits, List.mem_flatten, List.mem_map] at hj
  obtain ⟨l, ⟨r, _, hl⟩, hjl⟩ := hj
  subst hl
  have hfold : (stepRacer s.walls r).2 =
      (wallsFold r.radius 0 s.walls
        ⟨(if (r.x + r.vx) - r.radius < 0 ∨ LEVEL_WIDTH < (r.x + r.vx) + r.radius then
            (if (r.x + r.vx) - r.radius < 0 then r.radius else LEVEL_WIDTH - r.radius)
          else r.x + r.vx),
          r.y + (r.vy + GRAVITY),
          (if (r.x + r.vx) - r.radius < 0 ∨ LEVEL_WIDTH < (r.x + r.vx) + r.radius then
            r.vx * (-RESTITUTION) else r.vx),
          r.vy + GRAVITY, []⟩).hits := rfl
  rw [hfold] at hjl
  rcases wallsFold_hits_mem r.radius s.walls 0 _ j hjl with h | ⟨_, w, hw, htc⟩
  · simp at h
  · have hget : s.walls[j]? = some w := by simpa using hw
    constructor
    · by_contra hlen
      push_neg at hlen
      rw [List.getElem?_eq_none hlen] at hget
      cases hget
    · have : tcOpt s.walls j = w.touchCount := by simp [tcOpt, hget]
      rw [tcVal_eq_getD, this]
      exact htc

end MarbleMaze

namespace MarbleMaze

open Classical in
/-- The racers that qualify for the win check on this tick: their
post-update vertical position exceeds the course height. -/
noncomputable def tickQualifiers (levelHeight : ℝ) (s : RaceState) : List Racer :=
  s.racers.filter fun r => decide (levelHeight < (stepRacer s.walls r).1.y)

theorem getLast?_cons_or {α : Type} (a : α) (l : List α) :
    (a :: l).getLast? = l.getLast?.or (some a) := by
  induction l generalizing a with
  | nil => rfl
  | cons b l ih =>
      rw [List.getLast?_cons_cons, ih b]
      cases hl : l.getLast? <;> rfl

theorem option_or_assoc {α : Type} (a b c : Option α) :
    (a.or b).or c = a.or (b.or c) := by
  cases a <;> rfl

open Classical in
theorem tickWinner_foldl_aux (levelHeight : ℝ) (s : RaceState)
    (hw : s.winner = none) :
    ∀ (l : List Racer) (acc : Option Racer),
      l.foldl
        (fun acc r =>
          if levelHeight < (stepRacer s.walls r).1.y ∧ s.winner = none then some r
          else acc) acc =
      (l.filter fun r =>
        decide (levelHeight < (stepRacer s.walls r).1.y)).getLast?.or acc := by
  intro l
  induction l with
  | nil => intro acc; rfl
  | cons r l ih =>
      intro acc
      rw [List.foldl_cons, ih]
      by_cases hp : levelHeight < (stepRacer s.walls r).1.y
      · rw [if_pos ⟨hp, hw⟩]
        rw [List.filter_cons_of_pos (by simpa using hp)]
        rw [getLast?_cons_or, option_or_assoc]
        rfl
      · rw [if_neg (by tauto)]
        rw [List.filter_cons_of_neg (by simpa using hp)]

theorem tickWinner_eq_getLast (levelHeight : ℝ) (s : RaceState)
    (hw : s.winner = none) :
    tickWinner levelHeight s = (tickQualifiers levelHeight s).getLast? := by
  rw [tickWinner, tickQualifiers, tickWinner_foldl_aux levelHeight s hw, hw]
  cases (s.racers.filter fun r =>
    decide (levelHeight < (stepRacer s.walls r).1.y)).getLast? <;> rfl

theorem tickWinner_isSome (levelHeight : ℝ) (s : RaceState)
    (hw : s.winner = none) (hne : tickQualifiers levelHeight s ≠ []) :
    (tickWinner levelHeight s).isSome := by
  rw [tickWinner_eq_getLast levelHeight s hw]
  exact List.getLast?_isSome.mpr hne

/-! ## The camera target dominates its inputs -/

theorem le_foldl_max (l : List ℝ) : ∀ a : ℝ, a ≤ l.foldl max a := by
  induction l with
  | nil => intro a; exact le_refl a
  | cons x l ih =>
      intro a
      exact le_trans (le_max_left a x) (ih (max a x))

theorem mem_le_foldl_max (l : List ℝ) (x : ℝ) (hx : x ∈ l) :
    ∀ a : ℝ, x ≤ l.foldl max a := by
  induction l with
  | nil => cases hx
  | cons b l ih =>
      intro a
      rcases List.mem_cons.mp hx with h | h
      · subst h
        exact le_trans (le_max_right a x) (le_foldl_max l (max a x))
      · exact ih h (max a b)

theorem half_viewport_le_cameraTarget (rs : List Racer) :
    VIEWPORT_HEIGHT / 2 ≤ cameraTarget rs :=
  le_max_left _ _

theorem racer_y_le_cameraTarget (rs : List Racer) (r : Racer) (hr : r ∈ rs) :
    r.y ≤ cameraTarget rs := by
  refine le_trans ?_ (le_max_right (VIEWPORT_HEIGHT / 2) _)
  exact mem_le_foldl_max _ r.y (List.mem_map_of_mem Racer.y hr) 0

end MarbleMaze

namespace MarbleMaze

/-! ## Speed cap facts -/

theorem capVelocity_of_le (vx vy : ℝ)
    (h : Real.sqrt (vx * vx + vy * vy) ≤ MAX_SPEED) :
    capVelocity vx vy = (vx, vy) := by
  simp only [capVelocity, if_neg (not_lt.mpr h)]

theorem capVelocity_norm_eq (vx vy : ℝ)
    (h : MAX_SPEED < Real.sqrt (vx * vx + vy * vy)) :
    Real.sqrt ((capVelocity vx vy).1 ^ 2 + (capVelocity vx vy).2 ^ 2) =
      MAX_SPEED := by
  have hpos : (0 : ℝ) < Real.sqrt (vx * vx + vy * vy) :=
    lt_trans (by norm_num [MAX_SPEED]) h
  have hne : Real.sqrt (vx * vx + vy * vy) ≠ 0 := ne_of_gt hpos
  have hssq : Real.sqrt (vx * vx + vy * vy) ^ 2 = vx * vx + vy * vy :=
    Real.sq_sqrt (add_nonneg (mul_self_nonneg vx) (mul_self_nonneg vy))
  simp only [capVelocity, if_pos h]
  have hval : (vx / Real.sqrt (vx * vx + vy * vy) * MAX_SPEED) ^ 2 +
      (vy / Real.sqrt (vx * vx + vy * vy) * MAX_SPEED) ^ 2 = MAX_SPEED ^ 2 := by
    field_simp
    linear_combination (-(MAX_SPEED ^ 2)) * hssq
  rw [hval, Real.sqrt_sq (by norm_num [MAX_SPEED])]

theorem capVelocity_norm_le (vx vy : ℝ) :
    Real.sqrt ((capVelocity vx vy).1 ^ 2 + (capVelocity vx vy).2 ^ 2) ≤
      MAX_SPEED := by
  by_cases h : MAX_SPEED < Real.sqrt (vx * vx + vy * vy)
  · exact le_of_eq (capVelocity_norm_eq vx vy h)
  · push_neg at h
    rw [capVelocity_of_le vx vy h]
    calc Real.sqrt (vx ^ 2 + vy ^ 2)
        = Real.sqrt (vx * vx + vy * vy) := by rw [sq, sq]
      _ ≤ MAX_SPEED := h

theorem capVelocity_scales (vx vy : ℝ)
    (h : MAX_SPEED < Real.sqrt (vx * vx + vy * vy)) :
    ∃ k : ℝ, 0 < k ∧ capVelocity vx vy = (k * vx, k * vy) := by
  refine ⟨MAX_SPEED / Real.sqrt (vx * vx + vy * vy),
    div_pos (by norm_num [MAX_SPEED]) (lt_trans (by norm_num [MAX_SPEED]) h), ?_⟩
  simp only [capVelocity, if_pos h, Prod.mk.injEq]
  constructor <;> ring

theorem stepRacer_velocity (walls : List LineWall) (r : Racer) :
    ∃ a b : ℝ, (stepRacer walls r).1.vx = (capVelocity a b).1 ∧
      (stepRacer walls r).1.vy = (capVelocity a b).2 :=
  ⟨_, _, rfl, rfl⟩

/-! ## Branches of the tick -/

theorem updateRace_of_winner (levelHeight : ℝ) (s : RaceState)
    (hw : s.winner.isSome) :
    updateRace levelHeight s =
      { s with gameState := GameState.finished, scheduled := false } := by
  simp [updateRace, hw]

theorem updateRace_racers (levelHeight : ℝ) (s : RaceState)
    (hw : s.winner = none) :
    (updateRace levelHeight s).racers = tickRacers s := by
  simp [updateRace, hw]

theorem updateRace_winner (levelHeight : ℝ) (s : RaceState)
    (hw : s.winner = none) :
    (updateRace levelHeight s).winner = tickWinner levelHeight s := by
  simp [updateRace, hw]

theorem updateRace_gameState (levelHeight : ℝ) (s : RaceState)
    (hw : s.winner = none) :
    (updateRace levelHeight s).gameState = s.gameState := by
  simp [updateRace, hw]

theorem updateRace_scheduled (levelHeight : ℝ) (s : RaceState)
    (hw : s.winner = none) :
    (updateRace levelHeight s).scheduled = true := by
  simp [updateRace, hw]

theorem updateRace_cameraY (levelHeight : ℝ) (s : RaceState)
    (hw : s.winner = none) :
    (updateRace levelHeight s).cameraY =
      s.cameraY + (cameraTarget (tickRacers s) - s.cameraY) * 0.08 := by
  simp [updateRace, hw]

theorem updateRace_walls_of_none (levelHeight : ℝ) (s : RaceState)
    (hw : s.winner = none) :
    (updateRace levelHeight s).walls =
      if tickHits s = [] then s.walls else updWalls (tickHits s) s.walls := by
  simp [updateRace, hw]

theorem startRace_walls (s : RaceState) : (startRace s).walls = s.walls := by
  unfold startRace
  split <;> rfl

/-! ## Per-tick counter monotonicity and the 0-1-2 bound -/

theorem tcVal_mono_tick (levelHeight : ℝ) (s : RaceState) (j : ℕ) :
    tcVal s.walls j ≤ tcVal (updateRace levelHeight s).walls j := by
  cases hw : s.winner with
  | some w =>
      rw [updateRace_of_winner levelHeight s (by simp [hw])]
  | none =>
      rw [updateRace_walls_of_none levelHeight s hw]
      by_cases hh : tickHits s = []
      · simp [hh]
      · simp only [if_neg hh]
        rw [tcVal_updWalls]
        split <;> omega

end MarbleMaze

namespace MarbleMaze

/-! ## Facts about the particle-spawn edge trigger -/

theorem tcOpt_eq_some (ws : List LineWall) (i k : ℕ) (h : tcOpt ws i = some k) :
    ∃ w, ws[i]? = some w ∧ w.touchCount = some k := by
  cases hg : ws[i]? with
  | none => simp [tcOpt, hg] at h
  | some w => exact ⟨w, rfl, by simpa [tcOpt, hg] using h⟩

theorem emitsAt_true_of (prev cur : List LineWall) (i : ℕ) (w pw : LineWall)
    (hc : cur[i]? = some w) (hw2 : w.touchCount = some 2)
    (hp : prev[i]? = some pw) (hp1 : jsLtTwo pw.touchCount = true) :
    emitsAt prev cur i = true := by
  simp [emitsAt, hc, hp, hw2, hp1]

theorem emitsAt_false_of_prev_destroyed (prev cur : List LineWall) (i : ℕ)
    (pw : LineWall) (hp : prev[i]? = some pw) (hp2 : pw.touchCount = some 2) :
    emitsAt prev cur i = false := by
  unfold emitsAt
  cases hc : cur[i]? with
  | none => rfl
  | some w => simp [hp, hp2, jsLtTwo]

theorem emitsAt_true_elim (prev cur : List LineWall) (i : ℕ)
    (h : emitsAt prev cur i = true) : tcOpt cur i = some 2 := by
  unfold emitsAt at h
  cases hc : cur[i]? with
  | none => rw [hc] at h; cases h
  | some w =>
      rw [hc] at h
      have h2 : w.touchCount = some 2 :=
        of_decide_eq_true (Bool.and_eq_true .. |>.mp h).1
      simp [tcOpt, hc, h2]

theorem updWalls_nil_hits : ∀ (k : ℕ) (ws : List LineWall),
    updWallsFrom [] k ws = ws := by
  intro k ws
  induction ws generalizing k with
  | nil => rfl
  | cons w ws ih => simp [updWallsFrom, ih]

theorem trace_absorb (f : ℕ → List LineWall) (i : ℕ)
    (hstep : ∀ n, ∃ hits, (∀ j ∈ hits, tcVal (f n) j < 2) ∧
        f (n + 1) = updWalls hits (f n))
    (n : ℕ) (h2 : tcOpt (f n) i = some 2) : tcOpt (f (n + 1)) i = some 2 := by
  obtain ⟨hits, hg, heq⟩ := hstep n
  have hni : i ∉ hits := by
    intro hi
    have hlt := hg i hi
    rw [tcVal_eq_getD, h2] at hlt
    simp at hlt
  rw [heq, tcOpt_updWalls_not_mem hits (f n) i hni, h2]

theorem trace_absorb_le (f : ℕ → List LineWall) (i : ℕ)
    (hstep : ∀ n, ∃ hits, (∀ j ∈ hits, tcVal (f n) j < 2) ∧
        f (n + 1) = updWalls hits (f n))
    (m n : ℕ) (hmn : m ≤ n) (h2 : tcOpt (f m) i = some 2) :
    tcOpt (f n) i = some 2 := by
  induction n, hmn using Nat.le_induction with
  | base => exact h2
  | succ n hmn ih => exact trace_absorb f i hstep n ih

theorem updateRace_walls_step (levelHeight : ℝ) (s : RaceState)
    (hw : s.winner = none) :
    ∃ hits, (∀ j ∈ hits, tcVal s.walls j < 2) ∧
      (updateRace levelHeight s).walls = updWalls hits s.walls := by
  refine ⟨tickHits s, fun j hj => (tickHits_valid s j hj).2, ?_⟩
  rw [updateRace_walls_of_none levelHeight s hw]
  by_cases hh : tickHits s = []
  · rw [if_pos hh, hh, updWalls, updWalls_nil_hits]
  · rw [if_neg hh]

end MarbleMaze

namespace MarbleMaze

/-- C2: per-wall `touchCount` is monotonically non-decreasing across
ticks of `updateRace` during a race attempt, and is reset to absent
exactly by the reset-carrying commands — `handleEditMaze` (edit course),
`handleRaceAgain` (race again) and `restartCurrentRace` (restart race),
all via `resetRace`'s `touchCount` strip — while `startRace`, the only
other controller command touching the racing phase, leaves the wall list
unchanged. -/
theorem c2_touch_count_monotone_and_reset :
    (∀ (levelHeight : ℝ) (s : RaceState) (j : ℕ),
        tcVal s.walls j ≤ tcVal (updateRace levelHeight s).walls j) ∧
    (∀ (u1 u2 u3 : ℝ) (s : RaceState) (j : ℕ),
        tcOpt (resetRace u1 u2 u3 s).walls j = none) ∧
    (∀ (u1 u2 u3 : ℝ) (s : RaceState) (j : ℕ),
        tcOpt (restartCurrentRace u1 u2 u3 s).walls j = none) ∧
    (∀ (u1 u2 u3 : ℝ) (s : RaceState) (j : ℕ),
        tcOpt (handleEditMaze u1 u2 u3 s).walls j = none) ∧
    (∀ (u1 u2 u3 : ℝ) (s : RaceState) (j : ℕ),
        tcOpt (handleRaceAgain u1 u2 u3 s).walls j = none) ∧
    (∀ s : RaceState, (startRace s).walls = s.walls) := by
  refine ⟨tcVal_mono_tick, ?_, ?_, ?_, ?_, startRace_walls⟩
  · intro u1 u2 u3 s j
    exact tcOpt_stripTouchCounts s.walls j
  · intro u1 u2 u3 s j
    exact tcOpt_stripTouchCounts s.walls j
  · intro u1 u2 u3 s j
    exact tcOpt_stripTouchCounts s.walls j
  · intro u1 u2 u3 s j
    rw [handleRaceAgain, startRace_walls]
    exact tcOpt_stripTouchCounts s.walls j

/-- C9: a tick of `updateRace` preserves the invariant that every wall's
effective hit count is at most 2: collision detection skips walls whose
count is already at least 2, and the merge writes the snapshot count plus
one, so counts stay in the set consisting of absent/0, 1 and 2. -/
theorem c9_touch_count_le_two (levelHeight : ℝ) (s : RaceState)
    (hall : ∀ j, tcVal s.walls j ≤ 2) :
    ∀ j, tcVal (updateRace levelHeight s).walls j ≤ 2 := by
  intro j
  cases hw : s.winner with
  | some w =>
      rw [updateRace_of_winner levelHeight s (by simp [hw])]
      exact hall j
  | none =>
      rw [updateRace_walls_of_none levelHeight s hw]
      by_cases hh : tickHits s = []
      · rw [if_pos hh]
        exact hall j
      · rw [if_neg hh, tcVal_updWalls]
        split_ifs with hmem
        · have := (tickHits_valid s j hmem.1).2
          omega
        · exact hall j

/-- A one-wall snapshot used to witness C9: the wall is damaged
(`touchCount = 1`) and the racer list is empty. -/
noncomputable def c9State : RaceState :=
  { racers := [],
    walls := [{ x1 := 0, y1 := 100, x2 := 100, y2 := 100, touchCount := some 1 }],
    gameState := GameState.racing, winner := none, particles := [],
    cameraY := 400, scheduled := true }

/-- Witness for C9 at the concrete snapshot `c9State`. -/
theorem c9_touch_count_le_two_witness :
    (∀ j, tcVal c9State.walls j ≤ 2) ∧
      (∀ j, tcVal (updateRace 800 c9State).walls j ≤ 2) := by
  have hall : ∀ j, tcVal c9State.walls j ≤ 2 := by
    intro j
    cases j with
    | zero => simp [tcVal, tcOpt, c9State]
    | succ j => simp [tcVal, tcOpt, c9State]
  exact ⟨hall, c9_touch_count_le_two 800 c9State hall⟩

/-- C5: after a tick of `updateRace` every racer's speed magnitude is at
most `MAX_SPEED` (which is the configured 15); moreover whenever the
pre-cap speed exceeds the maximum, `capVelocity` rescales the velocity by
a positive scalar (preserving direction) to magnitude exactly
`MAX_SPEED`. -/
theorem c5_speed_cap (levelHeight : ℝ) (s : RaceState)
    (hw : s.winner = none) :
    (∀ r' ∈ (updateRace levelHeight s).racers,
        Real.sqrt (r'.vx ^ 2 + r'.vy ^ 2) ≤ MAX_SPEED) ∧
    MAX_SPEED = 15 ∧
    (∀ vx vy : ℝ, MAX_SPEED < Real.sqrt (vx * vx + vy * vy) →
        ∃ k : ℝ, 0 < k ∧ capVelocity vx vy = (k * vx, k * vy) ∧
          Real.sqrt ((capVelocity vx vy).1 ^ 2 + (capVelocity vx vy).2 ^ 2) =
            MAX_SPEED) := by
  refine ⟨?_, rfl, ?_⟩
  · intro r' hr'
    rw [updateRace_racers levelHeight s hw] at hr'
    simp only [tickRacers, List.mem_map] at hr'
    obtain ⟨r, _, hr⟩ := hr'
    obtain ⟨a, b, hvx, hvy⟩ := stepRacer_velocity s.walls r
    rw [← hr, hvx, hvy]
    exact capVelocity_norm_le a b
  · intro vx vy h
    obtain ⟨k, hk, hcap⟩ := capVelocity_scales vx vy h
    exact ⟨k, hk, hcap, capVelocity_norm_eq vx vy h⟩

/-- A small wall-free snapshot used to witness C5. -/
noncomputable def c5State : RaceState :=
  { racers := [{ id := RacerId.circle, x := 225, y := 100, vx := 0, vy := 0,
                 radius := 20 }],
    walls := [], gameState := GameState.racing, winner := none,
    particles := [], cameraY := 400, scheduled := true }

/-- Witness for C5 at the concrete snapshot `c5State`. -/
theorem c5_speed_cap_witness :
    (∀ r' ∈ (updateRace 800 c5State).racers,
        Real.sqrt (r'.vx ^ 2 + r'.vy ^ 2) ≤ MAX_SPEED) ∧
    MAX_SPEED = 15 ∧
    (∀ vx vy : ℝ, MAX_SPEED < Real.sqrt (vx * vx + vy * vy) →
        ∃ k : ℝ, 0 < k ∧ capVelocity vx vy = (k * vx, k * vy) ∧
          Real.sqrt ((capVelocity vx vy).1 ^ 2 + (capVelocity vx vy).2 ^ 2) =
            MAX_SPEED) :=
  c5_speed_cap 800 c5State rfl

/-- C8: per tick the camera satisfies the smoothing equation
`camera' = camera + (target - camera) * 0.08` with
`target = cameraTarget newRacers`; the target always dominates the half
viewport (400) and every racer's `y`; consequently a camera at or below
the top half-viewport bound never drops under it, and `resetRace`
restores the initial value `VIEWPORT_HEIGHT / 2 = 400`. -/
theorem c8_camera_smoothing (levelHeight : ℝ) (s : RaceState) :
    (s.winner = none →
        (updateRace levelHeight s).cameraY =
          s.cameraY + (cameraTarget (tickRacers s) - s.cameraY) * 0.08) ∧
    (∀ rs : List Racer, VIEWPORT_HEIGHT / 2 ≤ cameraTarget rs) ∧
    (∀ (rs : List Racer) (r : Racer), r ∈ rs → r.y ≤ cameraTarget rs) ∧
    (VIEWPORT_HEIGHT / 2 ≤ s.cameraY →
        VIEWPORT_HEIGHT / 2 ≤ (updateRace levelHeight s).cameraY) ∧
    (∀ (u1 u2 u3 : ℝ) (t : RaceState),
        (resetRace u1 u2 u3 t).cameraY = VIEWPORT_HEIGHT / 2) := by
  refine ⟨updateRace_cameraY levelHeight s, half_viewport_le_cameraTarget,
    fun rs r hr => racer_y_le_cameraTarget rs r hr, ?_,
    fun u1 u2 u3 t => rfl⟩
  intro hcam
  cases hw : s.winner with
  | some w =>
      rw [updateRace_of_winner levelHeight s (by simp [hw])]
      exact hcam
  | none =>
      rw [updateRace_cameraY levelHeight s hw]
      have ht := half_viewport_le_cameraTarget (tickRacers s)
      linarith

/-- Witness for C8 at the concrete snapshot `c5State` reuse-free: a
dedicated snapshot with the camera at the bound. -/
noncomputable def c8State : RaceState :=
  { racers := [{ id := RacerId.square, x := 100, y := 700, vx := 0, vy := 0,
                 radius := 20 }],
    walls := [], gameState := GameState.racing, winner := none,
    particles := [], cameraY := 400, scheduled := true }

/-- Witness for C8 at the concrete snapshot `c8State`. -/
theorem c8_camera_smoothing_witness :
    ((updateRace 800 c8State).cameraY =
        c8State.cameraY +
          (cameraTarget (tickRacers c8State) - c8State.cameraY) * 0.08) ∧
    (VIEWPORT_HEIGHT / 2 ≤ (updateRace 800 c8State).cameraY) := by
  refine ⟨(c8_camera_smoothing 800 c8State).1 rfl, ?_⟩
  exact (c8_camera_smoothing 800 c8State).2.2.2.1 (by norm_num [c8State, VIEWPORT_HEIGHT])

end MarbleMaze

namespace MarbleMaze

/-- C4: along any trace of wall snapshots produced by tick updates (each
step merges a hit set that only contains walls with count below 2, which
is exactly the shape `updateRace` produces — last conjunct), if wall `i`'s
counter first reaches 2 at step `N + 1`, then the particle-spawn effect's
edge trigger `emitsAt` fires at exactly that step — comparing the
previous snapshot's counter (then 1) with the new one (2) — and never at
any earlier or later step while the wall stays destroyed. -/
theorem c4_particle_emission_once (f : ℕ → List LineWall) (i N : ℕ)
    (hstep : ∀ n, ∃ hits, (∀ j ∈ hits, tcVal (f n) j < 2) ∧
        f (n + 1) = updWalls hits (f n))
    (h2 : tcOpt (f (N + 1)) i = some 2)
    (h1 : tcOpt (f N) i ≠ some 2) :
    emitsAt (f N) (f (N + 1)) i = true ∧
      (∀ M, N + 1 ≤ M → emitsAt (f M) (f (M + 1)) i = false) ∧
      (∀ M, M < N → emitsAt (f M) (f (M + 1)) i = false) ∧
      (∀ (levelHeight : ℝ) (s : RaceState), s.winner = none →
          ∃ hits, (∀ j ∈ hits, tcVal s.walls j < 2) ∧
            (updateRace levelHeight s).walls = updWalls hits s.walls) := by
  obtain ⟨hits, hg, heq⟩ := hstep N
  have hmemlen : i ∈ hits ∧ i < (f N).length := by
    by_contra hc
    have hsame : tcOpt (f (N + 1)) i = tcOpt (f N) i := by
      rw [heq]
      by_cases hi : i ∈ hits
      · have hlen : (f N).length ≤ i := by
          rcases not_and_or.mp hc with h | h
          · exact absurd hi h
          · omega
        exact tcOpt_updWalls_oob _ _ _ hlen
      · exact tcOpt_updWalls_not_mem _ _ _ hi
    exact h1 (hsame.symm.trans h2)
  obtain ⟨hi, hlen⟩ := hmemlen
  have hupd : tcOpt (f (N + 1)) i = some (tcVal (f N) i + 1) := by
    rw [heq]
    exact tcOpt_updWalls_mem hits (f N) i hi hlen
  have htv : tcVal (f N) i = 1 := by
    rw [hupd] at h2
    injection h2 with h2'
    omega
  have hprev : tcOpt (f N) i = some 1 := by
    cases hpo : tcOpt (f N) i with
    | none => rw [tcVal_eq_getD, hpo] at htv; simp at htv
    | some k =>
        rw [tcVal_eq_getD, hpo] at htv
        simp at htv
        rw [htv]
  obtain ⟨pw, hgp, hpw⟩ := tcOpt_eq_some _ _ _ hprev
  obtain ⟨w, hgc, hw2⟩ := tcOpt_eq_some _ _ _ h2
  refine ⟨emitsAt_true_of _ _ _ w pw hgc hw2 hgp (by rw [hpw]; rfl),
    ?_, ?_, updateRace_walls_step⟩
  · intro M hM
    obtain ⟨w', hg', hw'⟩ := tcOpt_eq_some _ _ _
      (trace_absorb_le f i hstep (N + 1) M hM h2)
    exact emitsAt_false_of_prev_destroyed _ _ _ w' hg' hw'
  · intro M hM
    cases hem : emitsAt (f M) (f (M + 1)) i with
    | false => rfl
    | true =>
        have h2M := emitsAt_true_elim _ _ _ hem
        exact absurd (trace_absorb_le f i hstep (M + 1) N (by omega) h2M) h1

/-- An intact wall used by the C4 witness trace. -/
def c4WallA : LineWall := { x1 := 0, y1 := 100, x2 := 100, y2 := 100 }

/-- The same wall after its first recorded hit. -/
def c4WallB : LineWall := { c4WallA with touchCount := some 1 }

/-- The same wall after its second recorded hit (destroyed). -/
def c4WallC : LineWall := { c4WallA with touchCount := some 2 }

/-- A concrete trace of wall snapshots for the C4 witness: the single
wall is hit on the first two steps and then left alone. -/
def c4Trace : ℕ → List LineWall
  | 0 => [c4WallA]
  | 1 => [c4WallB]
  | _ + 2 => [c4WallC]

theorem c4Trace_step : ∀ n, ∃ hits, (∀ j ∈ hits, tcVal (c4Trace n) j < 2) ∧
    c4Trace (n + 1) = updWalls hits (c4Trace n) := by
  intro n
  match n with
  | 0 =>
      refine ⟨[0], ?_, ?_⟩
      · intro j hj
        have hj0 : j = 0 := by simpa using hj
        subst hj0
        simp [tcVal, tcOpt, c4Trace, c4WallA]
      · simp [c4Trace, updWalls, updWallsFrom, c4WallB, c4WallA]
  | 1 =>
      refine ⟨[0], ?_, ?_⟩
      · intro j hj
        have hj0 : j = 0 := by simpa using hj
        subst hj0
        simp [tcVal, tcOpt, c4Trace, c4WallB, c4WallA]
      · simp [c4Trace, updWalls, updWallsFrom, c4WallC, c4WallB, c4WallA]
  | (m + 2) =>
      refine ⟨[], fun j hj => by simp at hj, ?_⟩
      rw [updWalls, updWalls_nil_hits]
      rfl

/-- Witness for C4 at the concrete trace `c4Trace`, wall index 0, with
the counter first reaching 2 at step 2. -/
theorem c4_particle_emission_once_witness :
    tcOpt (c4Trace 2) 0 = some 2 ∧ tcOpt (c4Trace 1) 0 ≠ some 2 ∧
      (emitsAt (c4Trace 1) (c4Trace 2) 0 = true ∧
        (∀ M, 2 ≤ M → emitsAt (c4Trace M) (c4Trace (M + 1)) 0 = false) ∧
        (∀ M, M < 1 → emitsAt (c4Trace M) (c4Trace (M + 1)) 0 = false) ∧
        (∀ (levelHeight : ℝ) (s : RaceState), s.winner = none →
            ∃ hits, (∀ j ∈ hits, tcVal s.walls j < 2) ∧
              (updateRace levelHeight s).walls = updWalls hits s.walls)) := by
  refine ⟨rfl, by simp [tcOpt, c4Trace, c4WallB, c4WallA], ?_⟩
  exact c4_particle_emission_once c4Trace 0 1 c4Trace_step rfl
    (by simp [tcOpt, c4Trace, c4WallB, c4WallA])

end MarbleMaze

namespace MarbleMaze

/-- With no walls, a racer's post-tick vertical position is obtained from
gravity and position integration alone. -/
theorem stepRacer_y_nil (r : Racer) :
    (stepRacer [] r).1.y = r.y + (r.vy + GRAVITY) := rfl

/-- The single racer of the C1 counterexample scenario: it is already
past the course height of 800 before the tick. -/
def c1Racer : Racer :=
  { id := RacerId.triangle, x := 225, y := 900, vx := 0, vy := 0, radius := 20 }

/-- The snapshot at the start of the C1 scenario tick. -/
noncomputable def c1State : RaceState :=
  { racers := [c1Racer], walls := [], gameState := GameState.racing,
    winner := none, particles := [], cameraY := 400, scheduled := true }

theorem c1_qualifiers_eval : tickQualifiers 800 c1State = [c1Racer] := by
  have h1 : (800 : ℝ) < (stepRacer ([] : List LineWall) c1Racer).1.y := by
    rw [stepRacer_y_nil]
    norm_num [c1Racer, GRAVITY]
  simp [tickQualifiers, c1State, h1]

/-- C1 counterexample: on the very tick N where the racer's vertical
position exceeds the course height, the winner is recorded, but the game
state is still `racing` and a tick N+1 IS scheduled
(`requestAnimationFrame` runs unconditionally at the end of the physics
path), contradicting the claim that the state becomes `finished` at tick
N with no tick N+1 scheduled. -/
theorem c1_finish_counterexample :
    (updateRace 800 c1State).winner = some c1Racer ∧
      (updateRace 800 c1State).gameState = GameState.racing ∧
      (updateRace 800 c1State).scheduled = true := by
  refine ⟨?_, updateRace_gameState 800 c1State rfl,
    updateRace_scheduled 800 c1State rfl⟩
  rw [updateRace_winner 800 c1State rfl, tickWinner_eq_getLast 800 c1State rfl,
    c1_qualifiers_eval]
  rfl

/-- C1 (amended): when a racer exceeds the course height on tick N with
no winner previously set, tick N records the winner but leaves the game
state unchanged and schedules tick N+1; the scheduled tick N+1 then only
sets the state to `finished` and cancels scheduling, leaving every other
snapshot component (racers, walls, particles, camera, winner) untouched,
so no physics runs after tick N. -/
theorem c1_finish_two_ticks (levelHeight : ℝ) (s : RaceState)
    (hw : s.winner = none) (hq : tickQualifiers levelHeight s ≠ []) :
    ((updateRace levelHeight s).winner).isSome ∧
      (updateRace levelHeight s).gameState = s.gameState ∧
      (updateRace levelHeight s).scheduled = true ∧
      updateRace levelHeight (updateRace levelHeight s) =
        { (updateRace levelHeight s) with
          gameState := GameState.finished,
          scheduled := false } := by
  have hsome : ((updateRace levelHeight s).winner).isSome := by
    rw [updateRace_winner levelHeight s hw]
    exact tickWinner_isSome levelHeight s hw hq
  exact ⟨hsome, updateRace_gameState levelHeight s hw,
    updateRace_scheduled levelHeight s hw,
    updateRace_of_winner levelHeight _ hsome⟩

/-- Witness for the amended C1 at the concrete snapshot `c1State`. -/
theorem c1_finish_two_ticks_witness :
    ((updateRace 800 c1State).winner).isSome ∧
      (updateRace 800 c1State).gameState = c1State.gameState ∧
      (updateRace 800 c1State).scheduled = true ∧
      updateRace 800 (updateRace 800 c1State) =
        { (updateRace 800 c1State) with
          gameState := GameState.finished,
          scheduled := false } :=
  c1_finish_two_ticks 800 c1State rfl (by rw [c1_qualifiers_eval]; simp)

/-- The first racer of the C6 tie scenario (first in iteration order). -/
def c6Racer1 : Racer :=
  { id := RacerId.circle, x := 100, y := 900, vx := 0, vy := 0, radius := 20 }

/-- The second racer of the C6 tie scenario. -/
def c6Racer2 : Racer :=
  { id := RacerId.square, x := 200, y := 900, vx := 0, vy := 0, radius := 20 }

/-- The snapshot of the C6 tie scenario: both racers cross the course
height of 800 on the same tick. -/
noncomputable def c6State : RaceState :=
  { racers := [c6Racer1, c6Racer2], walls := [], gameState := GameState.racing,
    winner := none, particles := [], cameraY := 400, scheduled := true }

theorem c6_qualifiers_eval : tickQualifiers 800 c6State = [c6Racer1, c6Racer2] := by
  have h1 : (800 : ℝ) < (stepRacer ([] : List LineWall) c6Racer1).1.y := by
    rw [stepRacer_y_nil]
    norm_num [c6Racer1, GRAVITY]
  have h2 : (800 : ℝ) < (stepRacer ([] : List LineWall) c6Racer2).1.y := by
    rw [stepRacer_y_nil]
    norm_num [c6Racer2, GRAVITY]
  simp [tickQualifiers, c6State, h1, h2]

/-- C6 counterexample: both racers qualify on the same tick, the first in
iteration order being `c6Racer1`, yet the recorded winner is `c6Racer2` —
each qualifying racer's `setWinner(racer)` call overwrites the previous
one because the guard reads the stale snapshot winner, so the LAST
qualifier wins, not the first as claimed. -/
theorem c6_first_wins_counterexample :
    tickQualifiers 800 c6State = [c6Racer1, c6Racer2] ∧
      (updateRace 800 c6State).winner = some c6Racer2 ∧
      c6Racer2 ≠ c6Racer1 := by
  refine ⟨c6_qualifiers_eval, ?_, ?_⟩
  · rw [updateRace_winner 800 c6State rfl, tickWinner_eq_getLast 800 c6State rfl,
      c6_qualifiers_eval]
    rfl
  · intro h
    have hid := congrArg Racer.id h
    simp [c6Racer1, c6Racer2] at hid

/-- C6 (amended): when no winner is yet recorded, the winner after the
tick is the LAST racer in iteration order whose post-update vertical
position exceeds the course height (or none if no racer qualifies). -/
theorem c6_last_qualifier_wins (levelHeight : ℝ) (s : RaceState)
    (hw : s.winner = none) :
    (updateRace levelHeight s).winner =
      (tickQualifiers levelHeight s).getLast? := by
  rw [updateRace_winner levelHeight s hw, tickWinner_eq_getLast levelHeight s hw]

/-- Witness for the amended C6 at the concrete snapshot `c6State`. -/
theorem c6_last_qualifier_wins_witness :
    (updateRace 800 c6State).winner = (tickQualifiers 800 c6State).getLast? :=
  c6_last_qualifier_wins 800 c6State rfl

end MarbleMaze

namespace MarbleMaze

/-- C3: when at least one racer records a geometric overlap with wall `i`
this tick (`i ∈ tickHits s`), the merged wall list advances wall `i`'s
counter by exactly one — the per-tick `wallHitMap` stores one entry per
wall regardless of how many racers hit it, and every entry's value is the
snapshot counter plus one — while each racer's own impulse response is
computed independently from the same snapshot (the new racer list is the
independent per-racer map over the snapshot walls). -/
theorem c3_one_increment_per_wall (levelHeight : ℝ) (s : RaceState)
    (hw : s.winner = none) (i : ℕ) (hi : i ∈ tickHits s) :
    tcVal (updateRace levelHeight s).walls i = tcVal s.walls i + 1 ∧
      (updateRace levelHeight s).racers =
        s.racers.map fun r => (stepRacer s.walls r).1 := by
  constructor
  · rw [updateRace_walls_of_none levelHeight s hw,
      if_neg (List.ne_nil_of_mem hi), tcVal_updWalls,
      if_pos ⟨hi, (tickHits_valid s i hi).1⟩]
  · rw [updateRace_racers levelHeight s hw]
    rfl

/-- The horizontal wall of the C3 witness scenario. -/
def c3Wall : LineWall := { x1 := 100, y1 := 400, x2 := 300, y2 := 400 }

/-- The falling racer of the C3 witness scenario: after gravity and
integration its centre lands exactly on the wall. -/
def c3Racer : Racer :=
  { id := RacerId.circle, x := 200, y := 390, vx := 0, vy := 9.9, radius := 20 }

/-- The snapshot of the C3 witness scenario. -/
noncomputable def c3State : RaceState :=
  { racers := [c3Racer], walls := [c3Wall], gameState := GameState.racing,
    winner := none, particles := [], cameraY := 400, scheduled := true }

theorem c3_hits_eval : (stepRacer [c3Wall] c3Racer).2 = [0] := by
  norm_num [stepRacer, wallsFold, wallStep, c3Wall, c3Racer, GRAVITY,
    LEVEL_WIDTH, min_def, max_def]

/-- Witness for C3 at the concrete snapshot `c3State`: the racer hits the
wall, the hit is recorded, and the wall's counter goes from 0 to 1. -/
theorem c3_one_increment_per_wall_witness :
    c3State.winner = none ∧ 0 ∈ tickHits c3State ∧
      (tcVal (updateRace 800 c3State).walls 0 = tcVal c3State.walls 0 + 1 ∧
        (updateRace 800 c3State).racers =
          c3State.racers.map fun r => (stepRacer c3State.walls r).1) := by
  have hhit : 0 ∈ tickHits c3State := by
    simp [tickHits, c3State, c3_hits_eval]
  exact ⟨rfl, hhit, c3_one_increment_per_wall 800 c3State rfl 0 hhit⟩

end MarbleMaze

namespace MarbleMaze

theorem enumFrom_filter_ne_all (index : ℕ) :
    ∀ (ws : List LineWall) (n : ℕ), index < n →
      ((List.enumFrom n ws).filter fun iw => iw.1 ≠ index).map Prod.snd = ws := by
  intro ws
  induction ws with
  | nil => intro n _; rfl
  | cons w ws ih =>
      intro n hn
      show (((n, w) :: List.enumFrom (n + 1) ws).filter
        fun iw => iw.1 ≠ index).map Prod.snd = w :: ws
      rw [List.filter_cons_of_pos (by simp; omega)]
      simp only [List.map_cons]
      rw [ih (n + 1) (by omega)]

theorem enumFrom_filter_ne_delete (index : ℕ) :
    ∀ (ws : List LineWall) (n : ℕ), n ≤ index →
      ((List.enumFrom n ws).filter fun iw => iw.1 ≠ index).map Prod.snd =
        if index - n < ws.length then ws.eraseIdx (index - n) else ws := by
  intro ws
  induction ws with
  | nil => intro n _; simp
  | cons w ws ih =>
      intro n hn
      show (((n, w) :: List.enumFrom (n + 1) ws).filter
        fun iw => iw.1 ≠ index).map Prod.snd = _
      by_cases heq : n = index
      · subst heq
        rw [List.filter_cons_of_neg (by simp)]
        rw [enumFrom_filter_ne_all n ws (n + 1) (by omega)]
        have h0 : n - n = 0 := by omega
        rw [h0]
        simp
      · have hlt : n < index := by omega
        rw [List.filter_cons_of_pos (by simp; omega)]
        simp only [List.map_cons]
        rw [ih (n + 1) (by omega)]
        have hk : index - n = (index - (n + 1)) + 1 := by omega
        rw [hk]
        by_cases hl : index - (n + 1) < ws.length
        · rw [if_pos hl, if_pos (by simp; omega), List.eraseIdx_cons_succ]
        · rw [if_neg hl, if_neg (by simp; omega)]

/-- C7 (amended): `handleDeleteWall` removes exactly the wall at an
in-range index, preserving all other walls in order; at an out-of-range
index it leaves the wall list unchanged — silently, with no error
reported to the caller. -/
theorem c7_delete_wall_semantics (walls : List LineWall) (index : ℕ) :
    handleDeleteWall walls index =
      if index < walls.length then walls.eraseIdx index else walls := by
  have h := enumFrom_filter_ne_delete index walls 0 (by omega)
  simpa [handleDeleteWall, List.enum] using h

/-- A wall used by the C7 counterexample. -/
def c7Wall : LineWall := { x1 := 0, y1 := 0, x2 := 10, y2 := 10 }

/-- C7 counterexample: deleting at the out-of-range index 1 of a one-wall
list.  The spec-modelled operation reports `invalidIndex`; the code's
`handleDeleteWall` returns the wall list unchanged and reports nothing —
there is no failure channel at all, refuting the claimed `InvalidIndex`
condition. -/
theorem c7_delete_wall_counterexample :
    removeWallSpec [c7Wall] 1 = Except.error WallEditError.invalidIndex ∧
      handleDeleteWall [c7Wall] 1 = [c7Wall] := by
  constructor
  · rfl
  · rfl

/-- C10 (amended): `createInitialRacers` yields exactly three racers at
the fixed abscissas `width * 0.25`, `width * 0.5`, `width * 0.75`, each
with `y = 30`, `vy = 0` and radius 20, and a random horizontal velocity
`(u - 0.5) * 2` lying in the half-open interval from -1 (inclusive) to 1
(exclusive) for a draw `u` in `[0, 1)`; a racer starts with zero
horizontal velocity only when its draw is exactly 0.5; `resetRace` and
`restartCurrentRace` recreate the racers through the same factory. -/
theorem c10_initial_racers (u1 u2 u3 : ℝ)
    (h1a : 0 ≤ u1) (h1b : u1 < 1) (h2a : 0 ≤ u2) (h2b : u2 < 1)
    (h3a : 0 ≤ u3) (h3b : u3 < 1) :
    (createInitialRacers u1 u2 u3).length = 3 ∧
    ((createInitialRacers u1 u2 u3).map Racer.x =
        [LEVEL_WIDTH * 0.25, LEVEL_WIDTH * 0.5, LEVEL_WIDTH * 0.75]) ∧
    ((createInitialRacers u1 u2 u3).map Racer.vx =
        [(u1 - 0.5) * 2, (u2 - 0.5) * 2, (u3 - 0.5) * 2]) ∧
    (∀ r ∈ createInitialRacers u1 u2 u3,
        r.y = 30 ∧ r.vy = 0 ∧ r.radius = RACER_RADIUS ∧
          -1 ≤ r.vx ∧ r.vx < 1) ∧
    (∀ r ∈ createInitialRacers u1 u2 u3,
        r.vx = 0 → u1 = 0.5 ∨ u2 = 0.5 ∨ u3 = 0.5) ∧
    (∀ s : RaceState,
        (resetRace u1 u2 u3 s).racers = createInitialRacers u1 u2 u3) ∧
    (∀ s : RaceState,
        (restartCurrentRace u1 u2 u3 s).racers =
          createInitialRacers u1 u2 u3) := by
  refine ⟨rfl, rfl, rfl, ?_, ?_, fun s => rfl, fun s => rfl⟩
  · intro r hr
    simp only [createInitialRacers, List.mem_cons, List.mem_singleton,
      List.not_mem_nil, or_false] at hr
    rcases hr with h | h | h
    · subst h
      refine ⟨rfl, rfl, rfl, ?_, ?_⟩
      · show -1 ≤ (u1 - 0.5) * 2
        linarith
      · show (u1 - 0.5) * 2 < 1
        linarith
    · subst h
      refine ⟨rfl, rfl, rfl, ?_, ?_⟩
      · show -1 ≤ (u2 - 0.5) * 2
        linarith
      · show (u2 - 0.5) * 2 < 1
        linarith
    · subst h
      refine ⟨rfl, rfl, rfl, ?_, ?_⟩
      · show -1 ≤ (u3 - 0.5) * 2
        linarith
      · show (u3 - 0.5) * 2 < 1
        linarith
  · intro r hr hvx
    simp only [createInitialRacers, List.mem_cons, List.mem_singleton,
      List.not_mem_nil, or_false] at hr
    rcases hr with h | h | h
    · subst h
      have hz : (u1 - 0.5) * 2 = 0 := hvx
      exact Or.inl (by linarith)
    · subst h
      have hz : (u2 - 0.5) * 2 = 0 := hvx
      exact Or.inr (Or.inl (by linarith))
    · subst h
      have hz : (u3 - 0.5) * 2 = 0 := hvx
      exact Or.inr (Or.inr (by linarith))

/-- C10 counterexample: the draw u = 0 is a legitimate `Math.random()`
value (0 ≤ u < 1), yet the first racer's horizontal velocity is then
exactly -1, which is not in the open interval (-1, 1) asserted by the
claim. -/
theorem c10_initial_racers_counterexample :
    (0 : ℝ) ≤ 0 ∧ (0 : ℝ) < 1 ∧
      ((createInitialRacers 0 0.5 0.5).map Racer.vx)[0]? = some (-1 : ℝ) ∧
      ¬(-1 : ℝ) < (-1 : ℝ) := by
  refine ⟨le_refl 0, by norm_num, ?_, by norm_num⟩
  norm_num [createInitialRacers]

/-- Witness for the amended C10 at the concrete draws 0.5, 0.25, 0.75. -/
theorem c10_initial_racers_witness :
    (createInitialRacers 0.5 0.25 0.75).length = 3 ∧
    ((createInitialRacers 0.5 0.25 0.75).map Racer.x =
        [LEVEL_WIDTH * 0.25, LEVEL_WIDTH * 0.5, LEVEL_WIDTH * 0.75]) ∧
    ((createInitialRacers 0.5 0.25 0.75).map Racer.vx =
        [((0.5 : ℝ) - 0.5) * 2, ((0.25 : ℝ) - 0.5) * 2,
          ((0.75 : ℝ) - 0.5) * 2]) ∧
    (∀ r ∈ createInitialRacers 0.5 0.25 0.75,
        r.y = 30 ∧ r.vy = 0 ∧ r.radius = RACER_RADIUS ∧
          -1 ≤ r.vx ∧ r.vx < 1) ∧
    (∀ r ∈ createInitialRacers 0.5 0.25 0.75,
        r.vx = 0 → (0.5 : ℝ) = 0.5 ∨ (0.25 : ℝ) = 0.5 ∨ (0.75 : ℝ) = 0.5) ∧
    (∀ s : RaceState,
        (resetRace 0.5 0.25 0.75 s).racers =
          createInitialRacers 0.5 0.25 0.75) ∧
    (∀ s : RaceState,
        (restartCurrentRace 0.5 0.25 0.75 s).racers =
          createInitialRacers 0.5 0.25 0.75) :=
  c10_initial_racers 0.5 0.25 0.75 (by norm_num) (by norm_num) (by norm_num)
    (by norm_num) (by norm_num) (by norm_num)

end MarbleMaze
